import Mathlib

/-!  Shallow embedding of i3-scaler.py: the configuration-line reconciliation
engine (update_or_append_line, update_config_file, the inline i3 directive
rewrite of set_i3_font_size, update_or_append_env_var) and the orchestration
of main, modelled as pure functions on line sequences and an explicit
file-system association list.  Python string primitives (strip, startswith,
endswith, split, in) are modelled on character lists. -/

/-- Models Python str.strip on the character list of a line: drop leading and
trailing whitespace. -/
def stripChars (cs : List Char) : List Char :=
  ((cs.dropWhile Char.isWhitespace).reverse.dropWhile Char.isWhitespace).reverse

/-- Models line.strip() from the source. -/
def pyStrip (s : String) : String := ⟨stripChars s.data⟩

/-- Models str.startswith. -/
def pyStartsWith (s pre : String) : Bool := pre.data.isPrefixOf s.data

/-- Models str.endswith, used by the source to choose the dialect from the
file path. -/
def pyEndsWith (s suf : String) : Bool := suf.data.isSuffixOf s.data

/-- Models the Python substring test (key in line) of the command branch of
update_or_append_line. -/
def pyContains (hay pat : String) : Bool :=
  hay.data.tails.any (fun t => pat.data.isPrefixOf t)

/-- Models str.split with separator "=" at character-list level: split on every
occurrence of the separator, keeping empty segments, as Python does. -/
def pySplitEq : List Char → List Char → List (List Char)
  | [], acc => [acc.reverse]
  | c :: cs, acc =>
    if c = '=' then acc.reverse :: pySplitEq cs [] else pySplitEq cs (c :: acc)

/-- Models line.strip().split("=")[-1] from update_or_append_env_var: the last
equals-separated segment of a string. -/
def lastEqSegment (s : String) : String := ⟨(pySplitEq s.data []).getLastD []⟩

/-- Matching rule shared by the line reconcilers of the source:
line.strip().startswith(key). -/
def lineMatches (key l : String) : Bool := pyStartsWith (pyStrip l) key

/-- Canonical rendering used by update_config_file: tight equals for .ini
paths, spaced equals otherwise (src/i3-scaler.py lines 53 and 61). -/
def canonicalKV (ini : Bool) (key value : String) : String :=
  if ini then key ++ "=" ++ value ++ "\n" else key ++ " = " ++ value ++ "\n"

/-- Per-line rewrite of update_config_file (lines 49-57): the first key of the
settings dict whose match predicate holds rewrites the whole line to its
canonical rendering; a line matching no key is kept unchanged. -/
def rewriteLine (ini : Bool) (settings : List (String × String)) (l : String) : String :=
  match settings.find? (fun kv => lineMatches kv.1 l) with
  | some kv => canonicalKV ini kv.1 kv.2
  | none => l

/-- Append phase of update_config_file (lines 59-61): every key with no
matching line in the accumulated output is appended in settings order; the
membership check runs over the growing list, exactly as the Python any() does. -/
def appendMissing (ini : Bool) : List (String × String) → List String → List String
  | [], acc => acc
  | kv :: rest, acc =>
    if acc.any (fun l => lineMatches kv.1 l) then appendMissing ini rest acc
    else appendMissing ini rest (acc ++ [canonicalKV ini kv.1 kv.2])

/-- Pure core of update_config_file (src/i3-scaler.py lines 39-64), the Line
Reconciler: settings are the (ordered) dict items, ini tells whether the path
ends in .ini. -/
def update_config_file (ini : Bool) (settings : List (String × String))
    (lines : List String) : List String :=
  appendMissing ini settings (lines.map (rewriteLine ini settings))

/-- Canonical rendering of update_or_append_line (lines 27 and 34): colon
dialect when the path ends in .Xresources, tight equals otherwise. -/
def uoalCanon (isXres : Bool) (key value : String) : String :=
  if isXres then key ++ ": " ++ value ++ "\n" else key ++ "=" ++ value ++ "\n"

/-- Line appended or substituted by the command branch of
update_or_append_line (lines 24 and 32). -/
def uoalCommandLine (key value : String) : String := key ++ " " ++ value ++ "\n"

/-- Per-line transform of update_or_append_line (lines 22-28). -/
def uoalStep (isXres command : Bool) (key value l : String) : String :=
  if command && pyContains l key then uoalCommandLine key value
  else if lineMatches key l then uoalCanon isXres key value
  else l

/-- Match predicate deciding the updated flag of update_or_append_line. -/
def uoalMatched (command : Bool) (key l : String) : Bool :=
  (command && pyContains l key) || lineMatches key l

/-- Pure core of update_or_append_line (src/i3-scaler.py lines 14-37): every
matching line is rewritten in place; if no line matched, the canonical line is
appended at the end. -/
def update_or_append_line (isXres command : Bool) (key value : String)
    (lines : List String) : List String :=
  let updated := lines.map (uoalStep isXres command key value)
  if lines.any (uoalMatched command key) then updated
  else updated ++ [if command then uoalCommandLine key value else uoalCanon isXres key value]

/-- Canonical export line of update_or_append_env_var (lines 139 and 143). -/
def envCanon (key value : String) : String :=
  "export " ++ key ++ "=" ++ value ++ "\n"

/-- Match predicate of update_or_append_env_var (line 137):
line.strip().startswith("export KEY="). -/
def envMatch (key l : String) : Bool :=
  pyStartsWith (pyStrip l) ("export " ++ key ++ "=")

/-- Per-line transform of update_or_append_env_var (lines 136-140): a matching
line is rewritten only when the last equals-separated segment of its stripped
form differs from the desired value. -/
def envStep (key value l : String) : String :=
  if envMatch key l then
    if lastEqSegment (pyStrip l) = value then l else envCanon key value
  else l

/-- Pure core of update_or_append_env_var (src/i3-scaler.py lines 128-146),
the Environment-Export Reconciler. -/
def update_or_append_env_var (key value : String) (lines : List String) : List String :=
  let updated := lines.map (envStep key value)
  if lines.any (envMatch key) then updated else updated ++ [envCanon key value]

/-- Canonical font directive written by set_i3_font_size (line 88). -/
def fontCanon (fontSize : String) : String := "font pango:monospace " ++ fontSize ++ "\n"

/-- Canonical display-scaling directive written by set_i3_font_size (line 83). -/
def xrandrCanon (dpi : String) : String := "exec xrandr --dpi " ++ dpi ++ "\n"

/-- Font match of set_i3_font_size (line 87): stripped line starts with font. -/
def fontMatch (l : String) : Bool := pyStartsWith (pyStrip l) "font"

/-- Display-scaling match of set_i3_font_size (line 89): stripped line starts
with the directive text exec xrandr --dpi. -/
def xrandrMatch (l : String) : Bool := pyStartsWith (pyStrip l) "exec xrandr --dpi"

/-- Line loop of set_i3_font_size (lines 86-95), carrying the xrandr_found
flag: every font-matching line is rewritten to the canonical font directive;
the first xrandr-matching line is rewritten to the canonical directive and
every later one is dropped. Returns the emitted lines and the final flag. -/
def i3Loop (fontSize dpi : String) : Bool → List String → List String × Bool
  | found, [] => ([], found)
  | found, l :: ls =>
    if fontMatch l then
      let r := i3Loop fontSize dpi found ls
      (fontCanon fontSize :: r.1, r.2)
    else if xrandrMatch l then
      if found then i3Loop fontSize dpi true ls
      else
        let r := i3Loop fontSize dpi true ls
        (xrandrCanon dpi :: r.1, r.2)
    else
      let r := i3Loop fontSize dpi found ls
      (l :: r.1, r.2)

/-- Pure core of set_i3_font_size (src/i3-scaler.py lines 82-99), the
Directive Reconciler: run the loop, then append the canonical xrandr directive
when no line matched it. -/
def set_i3_lines (fontSize dpi : String) (lines : List String) : List String :=
  let r := i3Loop fontSize dpi false lines
  if r.2 then r.1 else r.1 ++ [xrandrCanon dpi]

/-- File-system state: an association list from paths to line sequences.
Absent paths model files that do not exist. -/
abbrev FS := List (String × List String)

/-- Models os.path.exists. -/
def fsExists (fs : FS) (p : String) : Bool := fs.any (fun e => e.1 == p)

/-- Models reading a file as a line list (readlines); none when absent. -/
def fsRead (fs : FS) (p : String) : Option (List String) :=
  (fs.find? (fun e => e.1 == p)).map Prod.snd

/-- Models a full overwrite of a file (open for write plus writelines),
creating the entry when absent. -/
def fsWrite (fs : FS) (p : String) (ls : List String) : FS :=
  if fsExists fs p then fs.map (fun e => if e.1 == p then (p, ls) else e)
  else fs ++ [(p, ls)]

/-- Target paths (user home fixed to the token HOME). -/
def xresPath : String := "HOME/.Xresources"

def i3Path : String := "HOME/.config/i3/config"

def i3LegacyPath : String := "HOME/.i3/config"

def gtk3Path : String := "HOME/.config/gtk-3.0/settings.ini"

def gtk2Path : String := "HOME/.gtkrc-2.0"

def gtk4Path : String := "HOME/.config/gtk-4.0/settings.ini"

def profilePath : String := "HOME/.profile"

/-- File-level update_or_append_line: read the lines when the file exists
(empty sequence otherwise), apply the pure core, write back.  The dialect flag
is derived from the path as in the source. -/
def uoalFile (fs : FS) (p key value : String) : FS :=
  fsWrite fs p
    (update_or_append_line (pyEndsWith p ".Xresources") false key value
      ((fsRead fs p).getD []))

/-- File-level update_config_file (lines 39-64): an absent file is first
created empty (the makedirs plus open-close of lines 41-43), then read,
reconciled and rewritten. -/
def ucfFile (fs : FS) (p : String) (settings : List (String × String)) : FS :=
  let fs1 := if fsExists fs p then fs else fsWrite fs p []
  fsWrite fs1 p
    (update_config_file (pyEndsWith p ".ini") settings ((fsRead fs1 p).getD []))

/-- File-level update_or_append_env_var (lines 128-146). -/
def envFile (fs : FS) (p key value : String) : FS :=
  fsWrite fs p (update_or_append_env_var key value ((fsRead fs p).getD []))

/-- Models set_xresources_dpi (lines 66-70); the external xrdb merge is a
collaborator-owned no-op at this level. -/
def set_xresources_dpi (fs : FS) (dpi : Nat) : FS :=
  uoalFile fs xresPath "Xft.dpi" (toString dpi)

/-- Models set_i3_font_size (lines 72-102): legacy-path fallback, then an
unguarded read — an absent config file is a FileNotFoundError, returned as an
error value because the source opens the path for reading without an
existence check (line 79). -/
def set_i3_font_size (fs : FS) (fontSize dpi : Nat) : Except String FS :=
  let p := if !(fsExists fs i3Path) && fsExists fs i3LegacyPath then i3LegacyPath else i3Path
  match fsRead fs p with
  | none => .error "FileNotFoundError"
  | some ls => .ok (fsWrite fs p (set_i3_lines (toString fontSize) (toString dpi) ls))

/-- Models set_gtk_scaling (lines 104-126): three Line-Reconciler updates with
the settings dicts of the source. -/
def set_gtk_scaling (fs : FS) (dpi fontSize : Nat) : FS :=
  let fs1 := ucfFile fs gtk3Path
    [("gtk-font-name", "Sans " ++ toString fontSize),
     ("gtk-dpi", toString dpi),
     ("gtk-xft-dpi", toString (dpi * 1000))]
  let fs2 := ucfFile fs1 gtk2Path
    [("gtk-font-name", "Sans " ++ toString fontSize),
     ("gtk-xft-dpi", toString (dpi * 1000))]
  ucfFile fs2 gtk4Path
    [("gtk-font-name", "Sans " ++ toString fontSize),
     ("gtk-xft-dpi", toString (dpi * 1000))]

/-- Models set_qt_scaling (lines 148-152): two independent read-modify-write
passes over the profile.  scaleStr stands for the Python rendering
str(dpi / 96) of the derived float scale factor. -/
def set_qt_scaling (fs : FS) (scaleStr : String) (dpi : Nat) : FS :=
  let fs1 := envFile fs profilePath "QT_SCALE_FACTOR" scaleStr
  envFile fs1 profilePath "QT_FONT_DPI" (toString dpi)

/-- Outcome of a run of main: normal completion, a ValueError caught by the
outermost handler (lines 177-178), or an uncaught exception aborting the run. -/
inductive RunResult where
  | completed : FS → RunResult
  | invalidInput : FS → RunResult
  | crashed : String → FS → RunResult
deriving DecidableEq

/-- Models main (src/i3-scaler.py lines 158-178).  The two int(input(...))
calls are modelled by Option values (none models a non-integer entry raising
ValueError); both parses happen before any file step, and only ValueError is
caught.  External commands (xrdb, i3-msg) are collaborator-owned no-ops. -/
def mainModel (dpiInput fontInput : Option Nat) (scaleStr : String) (fs0 : FS) : RunResult :=
  match dpiInput with
  | none => .invalidInput fs0
  | some dpi =>
    match fontInput with
    | none => .invalidInput fs0
    | some fontSize =>
      let fs1 := set_xresources_dpi fs0 dpi
      match set_i3_font_size fs1 fontSize dpi with
      | .error e => .crashed e fs1
      | .ok fs2 =>
        let fs3 := set_gtk_scaling fs2 dpi fontSize
        .completed (set_qt_scaling fs3 scaleStr dpi)

/-- Models Python readlines at content level: split a character list into
lines, each keeping its terminating newline; a last line without newline is
kept as is; the empty content has no lines. -/
def splitLinesChars : List Char → List String
  | [] => []
  | c :: cs =>
    if c = '\n' then "\n" :: splitLinesChars cs
    else
      match splitLinesChars cs with
      | [] => [⟨[c]⟩]
      | l :: ls => ⟨c :: l.data⟩ :: ls

/-- Models reading a file content into its line list. -/
def readLines (s : String) : List String := splitLinesChars s.data

/-- Models writelines: plain concatenation of the line strings, with no
separator inserted between them. -/
def joinLines : List String → String
  | [] => ""
  | l :: ls => l ++ joinLines ls

/-! Claim theorems. -/

/-- C4 counterexample: with every target file absent, the run does not
complete.  It crashes with an uncaught FileNotFoundError when set_i3_font_size
opens the absent i3 config for reading, after only the .Xresources update has
taken effect; the GTK and profile files are never written. -/
theorem c4_counterexample :
    mainModel (some 144) (some 14) "1.5" [] =
      RunResult.crashed "FileNotFoundError" [(xresPath, ["Xft.dpi: 144\n"])] := by
  decide

/-- C4 amended: if all target files are absent except the i3 config (which
exists, here empty), the run with DPI 144 and font size 14 completes;
.Xresources ends with the line Xft.dpi: 144, the GTK3 settings file holds the
tight-equals lines gtk-font-name=Sans 14, gtk-dpi=144, gtk-xft-dpi=144000
(the path ends in .ini, so no spaces around the equals sign), and the profile
holds export QT_SCALE_FACTOR=1.5 and export QT_FONT_DPI=144.  Files handled by
the Line and Export reconcilers are created when absent; the i3 config is not. -/
theorem c4_end_to_end_amended :
    mainModel (some 144) (some 14) "1.5" [(i3Path, [])] =
      RunResult.completed
        [(i3Path, ["exec xrandr --dpi 144\n"]),
         (xresPath, ["Xft.dpi: 144\n"]),
         (gtk3Path, ["gtk-font-name=Sans 14\n", "gtk-dpi=144\n", "gtk-xft-dpi=144000\n"]),
         (gtk2Path, ["gtk-font-name = Sans 14\n", "gtk-xft-dpi = 144000\n"]),
         (gtk4Path, ["gtk-font-name=Sans 14\n", "gtk-xft-dpi=144000\n"]),
         (profilePath, ["export QT_SCALE_FACTOR=1.5\n", "export QT_FONT_DPI=144\n"])] := by
  decide

/-- C6: for the display-scaling directive with desired value 144, the two-line
input of stale directives reconciles to exactly the single canonical line: the
first line is rewritten in place, the second is dropped.  Stated both for
newline-terminated file lines and for the spec's bare line strings. -/
theorem c6_duplicate_collapse :
    set_i3_lines "14" "144" ["exec xrandr --dpi 96\n", "exec xrandr --dpi 120\n"] =
        ["exec xrandr --dpi 144\n"] ∧
    set_i3_lines "14" "144" ["exec xrandr --dpi 96", "exec xrandr --dpi 120"] =
        ["exec xrandr --dpi 144\n"] :=
  ⟨by decide, by decide⟩

/-- C9: when either interactive integer parse fails (a non-integer DPI or font
size), the ValueError is caught by the outermost handler of main and the run
ends with the file system exactly as it started: input collection precedes any
file mutation. -/
theorem c9_input_error (d f : Option Nat) (scaleStr : String) (fs : FS)
    (h : d = none ∨ f = none) :
    mainModel d f scaleStr fs = RunResult.invalidInput fs := by
  rcases h with h | h
  · subst h; rfl
  · subst h; cases d <;> rfl

/-- C9 witness: a failed DPI parse aborts the run and leaves the (empty) file
system untouched. -/
theorem c9_input_error_witness :
    mainModel none (some 14) "1.5" [] = RunResult.invalidInput [] :=
  c9_input_error none (some 14) "1.5" [] (Or.inl rfl)

/-- C1 counterexample: reconciliation by update_config_file is not idempotent
for every settings mapping.  With settings a, ab (in that order, spaced
dialect) and input [ab = 2], the first run rewrites the line to a = 1 and
appends ab = 2; the second run rewrites that appended line back to a = 1 and
appends ab = 2 again, so run 2 differs from run 1. -/
theorem c1_counterexample :
    update_config_file false [("a", "1"), ("ab", "2")]
        (update_config_file false [("a", "1"), ("ab", "2")] ["ab = 2\n"]) ≠
      update_config_file false [("a", "1"), ("ab", "2")] ["ab = 2\n"] := by
  decide

/-- C2 counterexample: with settings k=1 and an input already holding two
lines matching k, the output holds two matching lines (each rewritten in
place), not exactly one. -/
theorem c2_counterexample :
    (update_config_file true [("k", "1")] ["k=0\n", "k=9\n"]).filter
        (fun l => lineMatches "k" l) = ["k=1\n", "k=1\n"] ∧
    ((update_config_file true [("k", "1")] ["k=0\n", "k=9\n"]).filter
        (fun l => lineMatches "k" l)).length ≠ 1 :=
  ⟨by decide, by decide⟩

/-- C5 counterexample: duplicate font-directive lines are not dropped.  Both
input lines match the font prefix; the claim predicts the second is removed,
but the output still holds two (identical) font lines. -/
theorem c5_counterexample :
    set_i3_lines "14" "144" ["font a\n", "font b\n"] =
        ["font pango:monospace 14\n", "font pango:monospace 14\n", "exec xrandr --dpi 144\n"] ∧
    (set_i3_lines "14" "144" ["font a\n", "font b\n"]).countP (fun l => fontMatch l) = 2 :=
  ⟨by decide, by decide⟩

/-- C7 counterexample: a line containing the command name xrandr (and even the
whole directive text) mid-line is not treated as a match, because the source
tests a prefix of the stripped line, not containment.  The line passes through
unchanged and a fresh canonical directive is appended, instead of the line
being rewritten as the claim predicts. -/
theorem c7_counterexample :
    pyContains "bindsym exec xrandr --dpi 96\n" "xrandr" = true ∧
    set_i3_lines "14" "144" ["bindsym exec xrandr --dpi 96\n"] =
        ["bindsym exec xrandr --dpi 96\n", "exec xrandr --dpi 144\n"] ∧
    set_i3_lines "14" "144" ["bindsym exec xrandr --dpi 96\n"] ≠ ["exec xrandr --dpi 144\n"] :=
  ⟨by decide, by decide, by decide⟩

/-- C8 counterexample: a matching line whose stripped form is exactly
export KEY=V with V equal to the desired value is still mutated when the value
contains an equals sign, because the source compares only the segment after
the last equals sign: the surrounding whitespace of the original line is lost. -/
theorem c8_counterexample :
    pyStrip "  export K=a=b\n" = "export " ++ "K" ++ "=" ++ "a=b" ∧
    update_or_append_env_var "K" "a=b" ["  export K=a=b\n"] = ["export K=a=b\n"] ∧
    update_or_append_env_var "K" "a=b" ["  export K=a=b\n"] ≠ ["  export K=a=b\n"] :=
  ⟨by decide, by decide, by decide⟩

/-! Helper lemmas about the Line Reconciler. -/

/-- Lines satisfying a predicate that the map leaves unchanged survive as a
sublist of the mapped list. -/
theorem filter_sublist_map {α} (p : α → Bool) (f : α → α) :
    ∀ L : List α, (∀ x, p x = true → f x = x) → List.Sublist (L.filter p) (L.map f)
  | [], _ => by simp
  | a :: L, h => by
    by_cases hp : p a = true
    · rw [List.filter_cons_of_pos hp, List.map_cons, h a hp]
      exact (filter_sublist_map p f L h).cons₂ a
    · rw [List.filter_cons_of_neg (by simpa using hp), List.map_cons]
      exact (filter_sublist_map p f L h).cons (f a)

/-- The append phase only appends: the accumulated list is a sublist of its
result. -/
theorem sublist_appendMissing (ini : Bool) :
    ∀ (ss : List (String × String)) (acc : List String), List.Sublist acc (appendMissing ini ss acc)
  | [], acc => List.Sublist.refl acc
  | kv :: rest, acc => by
    rw [appendMissing]
    by_cases h : acc.any (fun l => lineMatches kv.1 l) = true
    · rw [if_pos h]
      exact sublist_appendMissing ini rest acc
    · rw [if_neg h]
      exact (List.sublist_append_left acc [canonicalKV ini kv.1 kv.2]).trans
        (sublist_appendMissing ini rest (acc ++ [canonicalKV ini kv.1 kv.2]))

/-- A line matching no key is left unchanged by the per-line rewrite. -/
theorem rewriteLine_eq_self (ini : Bool) (settings : List (String × String)) (l : String)
    (h : settings.any (fun kv => lineMatches kv.1 l) = false) :
    rewriteLine ini settings l = l := by
  rw [rewriteLine]
  have : settings.find? (fun kv => lineMatches kv.1 l) = none := by
    rw [List.find?_eq_none]
    intro kv hkv
    simpa using (List.any_eq_false.mp h) kv hkv
  rw [this]

/-- C3: every line of the input that matches no key of the settings appears
byte-identical in the output of update_config_file, in its original relative
order (the non-matching lines of the input form a sublist of the output). -/
theorem c3_preservation (ini : Bool) (settings : List (String × String)) (L : List String) :
    List.Sublist (L.filter (fun l => !(settings.any (fun kv => lineMatches kv.1 l))))
      (update_config_file ini settings L) := by
  refine (filter_sublist_map _ _ L ?_).trans (sublist_appendMissing ini settings _)
  intro l hl
  exact rewriteLine_eq_self ini settings l (by simpa using hl)

/-- C7 amended: the display-scaling directive matches by prefix of the
stripped line, not by containment: a line matching neither the font prefix nor
the directive prefix passes through unchanged — even one containing the
command name mid-line — and the canonical directive is appended after it. -/
theorem c7_match_mode_amended (fontSize dpi l : String)
    (h1 : fontMatch l = false) (h2 : xrandrMatch l = false) :
    set_i3_lines fontSize dpi [l] = [l, xrandrCanon dpi] := by
  simp [set_i3_lines, i3Loop, h1, h2]

/-- C7 witness: a bindsym line containing the directive text (hence the
command name) is not rewritten; the canonical directive is appended instead. -/
theorem c7_match_mode_witness :
    fontMatch "bindsym exec xrandr --dpi 96\n" = false ∧
    xrandrMatch "bindsym exec xrandr --dpi 96\n" = false ∧
    pyContains "bindsym exec xrandr --dpi 96\n" "exec xrandr --dpi" = true ∧
    set_i3_lines "14" "144" ["bindsym exec xrandr --dpi 96\n"] =
      ["bindsym exec xrandr --dpi 96\n", xrandrCanon "144"] :=
  ⟨by decide, by decide, by decide,
    c7_match_mode_amended "14" "144" "bindsym exec xrandr --dpi 96\n" (by decide) (by decide)⟩

/-- C8 amended: for a single matching line whose stripped form is exactly
export KEY=V, the reconciler leaves the line byte-identical when V equals the
desired value and rewrites it to the canonical export line when it differs —
provided the last equals-separated segment of that form is the whole of V
(true whenever the value contains no equals sign, as for the numeric values
the program writes). -/
theorem c8_export_amended (key value V l : String)
    (hl : pyStrip l = "export " ++ key ++ "=" ++ V)
    (hseg : lastEqSegment ("export " ++ key ++ "=" ++ V) = V) :
    (V = value → update_or_append_env_var key value [l] = [l]) ∧
    (V ≠ value → update_or_append_env_var key value [l] = [envCanon key value]) := by
  have hdata : ("export " ++ key ++ "=" ++ V).data = ("export " ++ key ++ "=").data ++ V.data := by
    simp
  have hm : envMatch key l = true := by
    rw [envMatch, pyStartsWith, hl, hdata, List.isPrefixOf_iff_prefix]
    exact List.prefix_append _ _
  have hseg2 : lastEqSegment (pyStrip l) = V := by rw [hl, hseg]
  constructor
  · intro hV
    simp [update_or_append_env_var, envStep, hm, hseg2, hV]
  · intro hV
    simp [update_or_append_env_var, envStep, hm, hseg2, hV]

/-- C8 witness: an already-correct export line with surrounding whitespace is
left byte-identical for the numeric value 120. -/
theorem c8_export_witness :
    ("120" = "120" →
      update_or_append_env_var "QT_FONT_DPI" "120" [" export QT_FONT_DPI=120\n"] =
        [" export QT_FONT_DPI=120\n"]) ∧
    ("120" ≠ "120" →
      update_or_append_env_var "QT_FONT_DPI" "120" [" export QT_FONT_DPI=120\n"] =
        [envCanon "QT_FONT_DPI" "120"]) :=
  c8_export_amended "QT_FONT_DPI" "120" "120" " export QT_FONT_DPI=120\n" (by decide) (by decide)

/-! Helper lemmas for the Directive Reconciler. -/

theorem stripChars_sandwich (pre ys : List Char)
    (hhead : ∃ d t, pre = d :: t ∧ d.isWhitespace = false)
    (hlast : ∃ m s, pre.reverse = m :: s ∧ m.isWhitespace = false) :
    stripChars (pre ++ ys) = pre ++ (ys.reverse.dropWhile Char.isWhitespace).reverse := by
  obtain ⟨d, t, hpre, hd⟩ := hhead
  obtain ⟨m, s, hrev, hm⟩ := hlast
  rw [stripChars]
  have hfront : (pre ++ ys).dropWhile Char.isWhitespace = pre ++ ys := by
    rw [hpre, List.cons_append, List.dropWhile_cons_of_neg (by simp [hd])]
  rw [hfront, List.reverse_append, hrev, List.dropWhile_append]
  by_cases hcase : (ys.reverse.dropWhile Char.isWhitespace).isEmpty = true
  · rw [if_pos hcase]
    rw [List.dropWhile_cons_of_neg (by simp [hm])]
    have hnil : ys.reverse.dropWhile Char.isWhitespace = [] := by
      simpa using hcase
    rw [hnil]
    have : (m :: s).reverse = pre := by rw [← hrev, List.reverse_reverse]
    simp [this]
  · rw [if_neg hcase, List.reverse_append]
    have : (m :: s).reverse = pre := by rw [← hrev, List.reverse_reverse]
    rw [this]


theorem fontCanon_data (fs : String) :
    (fontCanon fs).data = "font pango:monospace".data ++ (' ' :: (fs.data ++ ['\n'])) := by
  show ("font pango:monospace " ++ fs ++ "\n").data = _
  rw [String.data_append, String.data_append]
  rw [show "font pango:monospace ".data = "font pango:monospace".data ++ [' '] from rfl]
  rw [show "\n".data = ['\n'] from rfl]
  simp

theorem pyStrip_fontCanon (fs : String) :
    (pyStrip (fontCanon fs)).data = "font pango:monospace".data ++
      (((' ' :: (fs.data ++ ['\n'])).reverse.dropWhile Char.isWhitespace).reverse) := by
  show stripChars (fontCanon fs).data = _
  rw [fontCanon_data]
  exact stripChars_sandwich _ _ ⟨'f', "ont pango:monospace".data, rfl, by decide⟩
    ⟨'e', "capsonom:ognap tnof".data, by decide, by decide⟩

theorem fontMatch_fontCanon (fs : String) : fontMatch (fontCanon fs) = true := by
  rw [fontMatch, pyStartsWith, pyStrip_fontCanon]
  rw [List.isPrefixOf_iff_prefix]
  refine List.IsPrefix.trans ⟨" pango:monospace".data, by decide⟩ (List.prefix_append _ _)

theorem xrandrMatch_fontCanon (fs : String) : xrandrMatch (fontCanon fs) = false := by
  rw [xrandrMatch, pyStartsWith, pyStrip_fontCanon]
  rw [show "font pango:monospace".data = 'f' :: "ont pango:monospace".data from rfl]
  rw [List.cons_append]
  rw [show "exec xrandr --dpi".data = 'e' :: "xec xrandr --dpi".data from rfl]
  simp [List.isPrefixOf]

theorem xrandrCanon_data (dpi : String) :
    (xrandrCanon dpi).data = "exec xrandr --dpi".data ++ (' ' :: (dpi.data ++ ['\n'])) := by
  show ("exec xrandr --dpi " ++ dpi ++ "\n").data = _
  rw [String.data_append, String.data_append]
  rw [show "exec xrandr --dpi ".data = "exec xrandr --dpi".data ++ [' '] from rfl]
  rw [show "\n".data = ['\n'] from rfl]
  simp

theorem pyStrip_xrandrCanon (dpi : String) :
    (pyStrip (xrandrCanon dpi)).data = "exec xrandr --dpi".data ++
      (((' ' :: (dpi.data ++ ['\n'])).reverse.dropWhile Char.isWhitespace).reverse) := by
  show stripChars (xrandrCanon dpi).data = _
  rw [xrandrCanon_data]
  exact stripChars_sandwich _ _ ⟨'e', "xec xrandr --dpi".data, rfl, by decide⟩
    ⟨'i', "pd-- rdnarx cexe".data, by decide, by decide⟩

theorem xrandrMatch_xrandrCanon (dpi : String) : xrandrMatch (xrandrCanon dpi) = true := by
  rw [xrandrMatch, pyStartsWith, pyStrip_xrandrCanon]
  rw [List.isPrefixOf_iff_prefix]
  exact List.prefix_append _ _

theorem fontMatch_xrandrCanon (dpi : String) : fontMatch (xrandrCanon dpi) = false := by
  rw [fontMatch, pyStartsWith, pyStrip_xrandrCanon]
  rw [show "exec xrandr --dpi".data = 'e' :: "xec xrandr --dpi".data from rfl]
  rw [List.cons_append]
  rw [show "font".data = 'f' :: "ont".data from rfl]
  simp [List.isPrefixOf]


theorem i3Loop_snd_true (fontSize dpi : String) :
    ∀ ls : List String, (i3Loop fontSize dpi true ls).2 = true
  | [] => rfl
  | l :: ls => by
    cases hf : fontMatch l <;> cases hx : xrandrMatch l <;>
      simp only [i3Loop, hf, hx, if_true, if_false, Bool.false_eq_true, if_pos, ite_true,
        ite_false] <;>
      exact i3Loop_snd_true fontSize dpi ls

theorem i3Loop_true_filter (fontSize dpi : String) :
    ∀ ls : List String, (i3Loop fontSize dpi true ls).1.filter xrandrMatch = []
  | [] => rfl
  | l :: ls => by
    cases hf : fontMatch l
    · cases hx : xrandrMatch l
      · simp only [i3Loop, hf, hx, Bool.false_eq_true, if_false]
        rw [List.filter_cons_of_neg (by simp [hx])]
        exact i3Loop_true_filter fontSize dpi ls
      · simp only [i3Loop, hf, hx, Bool.false_eq_true, if_false, if_true]
        exact i3Loop_true_filter fontSize dpi ls
    · simp only [i3Loop, hf, if_true]
      rw [List.filter_cons_of_neg (by simp [xrandrMatch_fontCanon])]
      exact i3Loop_true_filter fontSize dpi ls

theorem i3Loop_false_filter (fontSize dpi : String) :
    ∀ ls : List String, (i3Loop fontSize dpi false ls).1.filter xrandrMatch =
      (if (i3Loop fontSize dpi false ls).2 then [xrandrCanon dpi] else [])
  | [] => rfl
  | l :: ls => by
    cases hf : fontMatch l
    · cases hx : xrandrMatch l
      · simp only [i3Loop, hf, hx, Bool.false_eq_true, if_false]
        rw [List.filter_cons_of_neg (by simp [hx])]
        exact i3Loop_false_filter fontSize dpi ls
      · simp only [i3Loop, hf, hx, Bool.false_eq_true, if_false, if_true]
        rw [List.filter_cons_of_pos (by simp [xrandrMatch_xrandrCanon])]
        rw [i3Loop_true_filter fontSize dpi ls, i3Loop_snd_true fontSize dpi ls]
        simp
    · simp only [i3Loop, hf, if_true]
      rw [List.filter_cons_of_neg (by simp [xrandrMatch_fontCanon])]
      exact i3Loop_false_filter fontSize dpi ls

theorem i3Loop_filter_font (fontSize dpi : String) :
    ∀ (ls : List String) (found : Bool), (i3Loop fontSize dpi found ls).1.filter fontMatch =
      List.replicate (ls.countP fontMatch) (fontCanon fontSize)
  | [], _ => rfl
  | l :: ls, found => by
    cases hf : fontMatch l
    · cases hx : xrandrMatch l
      · simp only [i3Loop, hf, hx, Bool.false_eq_true, if_false]
        rw [List.filter_cons_of_neg (by simp [hf])]
        rw [i3Loop_filter_font fontSize dpi ls found]
        simp [List.countP_cons, hf]
      · cases found
        · simp only [i3Loop, hf, hx, Bool.false_eq_true, if_false, if_true]
          rw [List.filter_cons_of_neg (by simp [fontMatch_xrandrCanon])]
          rw [i3Loop_filter_font fontSize dpi ls true]
          simp [List.countP_cons, hf]
        · simp only [i3Loop, hf, hx, Bool.false_eq_true, if_false, if_true]
          rw [i3Loop_filter_font fontSize dpi ls true]
          simp [List.countP_cons, hf]
    · simp only [i3Loop, hf, if_true]
      rw [List.filter_cons_of_pos (by simp [fontMatch_fontCanon])]
      rw [i3Loop_filter_font fontSize dpi ls found]
      simp [List.countP_cons, hf, List.replicate_succ]

theorem set_i3_filter_xrandr (fontSize dpi : String) (lines : List String) :
    (set_i3_lines fontSize dpi lines).filter xrandrMatch = [xrandrCanon dpi] := by
  rw [set_i3_lines]
  cases h2 : (i3Loop fontSize dpi false lines).2
  · simp only [Bool.false_eq_true, if_false]
    rw [List.filter_append, i3Loop_false_filter fontSize dpi lines, h2]
    simp [xrandrMatch_xrandrCanon]
  · simp only [if_true]
    rw [i3Loop_false_filter fontSize dpi lines, h2]
    simp

theorem set_i3_filter_font (fontSize dpi : String) (lines : List String) :
    (set_i3_lines fontSize dpi lines).filter fontMatch =
      List.replicate (lines.countP fontMatch) (fontCanon fontSize) := by
  rw [set_i3_lines]
  cases h2 : (i3Loop fontSize dpi false lines).2
  · simp only [Bool.false_eq_true, if_false]
    rw [List.filter_append, i3Loop_filter_font fontSize dpi lines false]
    simp [fontMatch_xrandrCanon]
  · simp only [if_true]
    exact i3Loop_filter_font fontSize dpi lines false

theorem i3Loop_fix_nox (fontSize dpi : String) :
    ∀ (ls : List String) (found : Bool),
      (∀ m ∈ ls, fontMatch m = true → m = fontCanon fontSize) →
      ls.filter xrandrMatch = [] →
      i3Loop fontSize dpi found ls = (ls, found)
  | [], _, _, _ => rfl
  | l :: ls, found, hfont, hfil => by
    cases hf : fontMatch l
    · cases hx : xrandrMatch l
      · simp only [i3Loop, hf, hx, Bool.false_eq_true, if_false]
        rw [List.filter_cons_of_neg (by simp [hx])] at hfil
        rw [i3Loop_fix_nox fontSize dpi ls found
          (fun m hm h2 => hfont m (List.mem_cons_of_mem l hm) h2) hfil]
      · rw [List.filter_cons_of_pos (by simp [hx])] at hfil
        exact absurd hfil (by simp)
    · have hl : l = fontCanon fontSize := hfont l (List.mem_cons_self l ls) hf
      simp only [i3Loop, hf, if_true]
      rw [List.filter_cons_of_neg (by simp [hl, xrandrMatch_fontCanon])] at hfil
      rw [i3Loop_fix_nox fontSize dpi ls found
        (fun m hm h2 => hfont m (List.mem_cons_of_mem l hm) h2) hfil]
      rw [hl]

theorem i3Loop_fix (fontSize dpi : String) :
    ∀ ls : List String,
      (∀ m ∈ ls, fontMatch m = true → m = fontCanon fontSize) →
      ls.filter xrandrMatch = [xrandrCanon dpi] →
      i3Loop fontSize dpi false ls = (ls, true)
  | [], _, hfil => by simp at hfil
  | l :: ls, hfont, hfil => by
    cases hf : fontMatch l
    · cases hx : xrandrMatch l
      · simp only [i3Loop, hf, hx, Bool.false_eq_true, if_false]
        rw [List.filter_cons_of_neg (by simp [hx])] at hfil
        rw [i3Loop_fix fontSize dpi ls
          (fun m hm h2 => hfont m (List.mem_cons_of_mem l hm) h2) hfil]
      · rw [List.filter_cons_of_pos (by simp [hx])] at hfil
        injection hfil with h1 h2
        simp only [i3Loop, hf, hx, Bool.false_eq_true, if_false, if_true]
        rw [i3Loop_fix_nox fontSize dpi ls true
          (fun m hm h3 => hfont m (List.mem_cons_of_mem l hm) h3) h2]
        rw [h1]
    · have hl : l = fontCanon fontSize := hfont l (List.mem_cons_self l ls) hf
      simp only [i3Loop, hf, if_true]
      rw [List.filter_cons_of_neg (by simp [hl, xrandrMatch_fontCanon])] at hfil
      rw [i3Loop_fix fontSize dpi ls
        (fun m hm h2 => hfont m (List.mem_cons_of_mem l hm) h2) hfil]
      rw [hl]

theorem set_i3_lines_idem (fontSize dpi : String) (lines : List String) :
    set_i3_lines fontSize dpi (set_i3_lines fontSize dpi lines) =
      set_i3_lines fontSize dpi lines := by
  have hfont : ∀ m ∈ set_i3_lines fontSize dpi lines, fontMatch m = true →
      m = fontCanon fontSize := by
    intro m hm hfm
    have hmem : m ∈ (set_i3_lines fontSize dpi lines).filter fontMatch :=
      List.mem_filter.mpr ⟨hm, hfm⟩
    rw [set_i3_filter_font] at hmem
    exact List.eq_of_mem_replicate hmem
  have hfix := i3Loop_fix fontSize dpi (set_i3_lines fontSize dpi lines) hfont
    (set_i3_filter_xrandr fontSize dpi lines)
  conv_lhs => rw [set_i3_lines]
  rw [hfix]
  simp

/-- C5 amended: in the Directive Reconciler the rewrite-first / drop-duplicate
policy applies only to the display-scaling directive: the output holds exactly
one xrandr-matching line, the canonical directive.  Font-matching lines are
each rewritten in place to the canonical font directive and duplicates are
kept, one rewritten copy per matching input line. -/
theorem c5_duplicate_policy_amended (fontSize dpi : String) (lines : List String) :
    (set_i3_lines fontSize dpi lines).filter xrandrMatch = [xrandrCanon dpi] ∧
    (set_i3_lines fontSize dpi lines).filter fontMatch =
      List.replicate (lines.countP fontMatch) (fontCanon fontSize) :=
  ⟨set_i3_filter_xrandr fontSize dpi lines, set_i3_filter_font fontSize dpi lines⟩

/-! Helper lemmas for idempotence of the Line Reconciler. -/

/-- A map whose function fixes every element of a list is the identity there. -/
theorem map_id_of_fixed {α} (f : α → α) : ∀ L : List α, (∀ x ∈ L, f x = x) → L.map f = L
  | [], _ => rfl
  | a :: L, h => by
    rw [List.map_cons, h a (List.mem_cons_self a L),
      map_id_of_fixed f L (fun x hx => h x (List.mem_cons_of_mem a hx))]

/-- find? returns the designated element when it satisfies the predicate and
every satisfying member of the list equals it. -/
theorem find?_eq_some_of_unique {α} (p : α → Bool) (a : α) :
    ∀ L : List α, a ∈ L → p a = true → (∀ b ∈ L, p b = true → b = a) →
      L.find? p = some a
  | [], h, _, _ => absurd h (List.not_mem_nil a)
  | b :: L, hmem, hpa, huniq => by
    cases hb : p b
    · rw [List.find?_cons_of_neg L (by simp [hb])]
      have hmem2 : a ∈ L := by
        rcases List.mem_cons.mp hmem with h | h
        · rw [← h] at hb; rw [hpa] at hb; cases hb
        · exact h
      exact find?_eq_some_of_unique p a L hmem2 hpa
        (fun c hc h2 => huniq c (List.mem_cons_of_mem b hc) h2)
    · rw [List.find?_cons_of_pos L (by simp [hb])]
      rw [huniq b (List.mem_cons_self b L) hb]

/-- Every element of the append-phase result is either an element of the
accumulated list or the canonical rendering of one of the settings. -/
theorem appendMissing_mem (ini : Bool) :
    ∀ (ss : List (String × String)) (acc : List String) (l : String),
      l ∈ appendMissing ini ss acc →
      l ∈ acc ∨ ∃ kv, kv ∈ ss ∧ l = canonicalKV ini kv.1 kv.2
  | [], _, _, h => Or.inl h
  | kv :: rest, acc, l, h => by
    rw [appendMissing] at h
    by_cases hc : acc.any (fun x => lineMatches kv.1 x) = true
    · rw [if_pos hc] at h
      rcases appendMissing_mem ini rest acc l h with h2 | ⟨kv2, h3, h4⟩
      · exact Or.inl h2
      · exact Or.inr ⟨kv2, List.mem_cons_of_mem kv h3, h4⟩
    · rw [if_neg hc] at h
      rcases appendMissing_mem ini rest (acc ++ [canonicalKV ini kv.1 kv.2]) l h with
        h2 | ⟨kv2, h3, h4⟩
      · rcases List.mem_append.mp h2 with h5 | h5
        · exact Or.inl h5
        · exact Or.inr ⟨kv, List.mem_cons_self kv rest, by simpa using h5⟩
      · exact Or.inr ⟨kv2, List.mem_cons_of_mem kv h3, h4⟩

/-- When every key already has a matching line in the accumulated list, the
append phase changes nothing. -/
theorem appendMissing_id (ini : Bool) :
    ∀ (ss : List (String × String)) (acc : List String),
      (∀ kv ∈ ss, acc.any (fun l => lineMatches kv.1 l) = true) →
      appendMissing ini ss acc = acc
  | [], _, _ => rfl
  | kv :: rest, acc, h => by
    rw [appendMissing, if_pos (h kv (List.mem_cons_self kv rest))]
    exact appendMissing_id ini rest acc (fun kv2 h2 => h kv2 (List.mem_cons_of_mem kv h2))

/-- After the append phase, every key has a matching line, provided each
canonical rendering matches its own key. -/
theorem appendMissing_covers (ini : Bool) :
    ∀ (ss : List (String × String)) (acc : List String),
      (∀ kv ∈ ss, lineMatches kv.1 (canonicalKV ini kv.1 kv.2) = true) →
      ∀ kv ∈ ss, (appendMissing ini ss acc).any (fun l => lineMatches kv.1 l) = true
  | [], _, _, kv, h => absurd h (List.not_mem_nil kv)
  | kv1 :: rest, acc, hself, kv, hmem => by
    rw [appendMissing]
    by_cases hc : acc.any (fun l => lineMatches kv1.1 l) = true
    · rw [if_pos hc]
      rcases List.mem_cons.mp hmem with h | h
      · subst h
        rcases List.any_eq_true.mp hc with ⟨x, hx, hpx⟩
        exact List.any_eq_true.mpr ⟨x, (sublist_appendMissing ini rest acc).subset hx, hpx⟩
      · exact appendMissing_covers ini rest acc
          (fun kv2 h2 => hself kv2 (List.mem_cons_of_mem kv1 h2)) kv h
    · rw [if_neg hc]
      rcases List.mem_cons.mp hmem with h | h
      · subst h
        refine List.any_eq_true.mpr ⟨canonicalKV ini kv.1 kv.2, ?_, ?_⟩
        · exact (sublist_appendMissing ini rest _).subset (by simp)
        · simpa using hself kv (List.mem_cons_self kv rest)
      · exact appendMissing_covers ini rest _
          (fun kv2 h2 => hself kv2 (List.mem_cons_of_mem kv1 h2)) kv h

/-- Under the key-compatibility hypothesis (each key's canonical rendering is
found back as that key, and no earlier key captures it) the per-line rewrite
is idempotent. -/
theorem rewriteLine_rewriteLine (ini : Bool) (settings : List (String × String))
    (H : ∀ kv ∈ settings,
      settings.find? (fun kv2 => lineMatches kv2.1 (canonicalKV ini kv.1 kv.2)) = some kv)
    (l : String) :
    rewriteLine ini settings (rewriteLine ini settings l) = rewriteLine ini settings l := by
  cases hf : settings.find? (fun kv => lineMatches kv.1 l) with
  | none =>
    have h1 : rewriteLine ini settings l = l := by rw [rewriteLine, hf]
    rw [h1]
    exact h1
  | some kv =>
    have h1 : rewriteLine ini settings l = canonicalKV ini kv.1 kv.2 := by
      rw [rewriteLine, hf]
    rw [h1, rewriteLine, H kv (List.mem_of_find?_eq_some hf)]

/-- Idempotence of the Line Reconciler under the key-compatibility
hypothesis. -/
theorem update_config_file_idem (ini : Bool) (settings : List (String × String))
    (H : ∀ kv ∈ settings,
      settings.find? (fun kv2 => lineMatches kv2.1 (canonicalKV ini kv.1 kv.2)) = some kv)
    (L : List String) :
    update_config_file ini settings (update_config_file ini settings L) =
      update_config_file ini settings L := by
  have Hself : ∀ kv ∈ settings, lineMatches kv.1 (canonicalKV ini kv.1 kv.2) = true := by
    intro kv hkv
    simpa using List.find?_some (H kv hkv)
  have hcov : ∀ kv ∈ settings,
      (update_config_file ini settings L).any (fun l => lineMatches kv.1 l) = true := by
    intro kv hkv
    exact appendMissing_covers ini settings (L.map (rewriteLine ini settings)) Hself kv hkv
  have hmap : (update_config_file ini settings L).map (rewriteLine ini settings) =
      update_config_file ini settings L := by
    apply map_id_of_fixed
    intro x hx
    rw [update_config_file] at hx
    rcases appendMissing_mem ini settings (L.map (rewriteLine ini settings)) x hx with
      h2 | ⟨kv, hkv, hcanon⟩
    · rcases List.mem_map.mp h2 with ⟨y, _, hyx⟩
      rw [← hyx]
      exact rewriteLine_rewriteLine ini settings H y
    · rw [hcanon, rewriteLine, H kv hkv]
  conv_lhs => rw [update_config_file]
  rw [hmap]
  exact appendMissing_id ini settings _ hcov

/-- C1 amended: the Directive Reconciler is idempotent for every input and
every font size and DPI; the Line Reconciler is idempotent provided each key's
canonical rendering matches its own key first (no key of the mapping is a
stripped-prefix of an earlier-rendered line), which holds for every settings
mapping the program passes.  The hypothesis cannot be dropped: see the
counterexample with overlapping keys. -/
theorem c1_idempotence_amended (ini : Bool) (settings : List (String × String))
    (fontSize dpi : String)
    (H : ∀ kv ∈ settings,
      settings.find? (fun kv2 => lineMatches kv2.1 (canonicalKV ini kv.1 kv.2)) = some kv) :
    (∀ L : List String, update_config_file ini settings (update_config_file ini settings L) =
      update_config_file ini settings L) ∧
    (∀ L : List String, set_i3_lines fontSize dpi (set_i3_lines fontSize dpi L) =
      set_i3_lines fontSize dpi L) :=
  ⟨fun L => update_config_file_idem ini settings H L,
   fun L => set_i3_lines_idem fontSize dpi L⟩

/-- C1 witness: idempotence at the program's own Xresources-style setting and
at a concrete i3 config. -/
theorem c1_idempotence_witness :
    update_config_file true [("Xft.dpi", "144")]
        (update_config_file true [("Xft.dpi", "144")] ["unrelated\n", "Xft.dpi=96\n"]) =
      update_config_file true [("Xft.dpi", "144")] ["unrelated\n", "Xft.dpi=96\n"] ∧
    set_i3_lines "14" "144" (set_i3_lines "14" "144" ["font a\n", "# c\n"]) =
      set_i3_lines "14" "144" ["font a\n", "# c\n"] :=
  ⟨(c1_idempotence_amended true [("Xft.dpi", "144")] "14" "144" (by decide)).1
      ["unrelated\n", "Xft.dpi=96\n"],
   (c1_idempotence_amended true [("Xft.dpi", "144")] "14" "144" (by decide)).2
      ["font a\n", "# c\n"]⟩

/-! Helper lemmas for completeness of the reconcilers. -/

/-- Filtering the image of a map where matching elements all become the
canonical element and non-matching elements stay non-matching yields one
canonical copy per matching input element. -/
theorem filter_map_replicate {α} (f : α → α) (p : α → Bool) (c : α) (hc : p c = true) :
    ∀ L : List α, (∀ l ∈ L, p l = true → f l = c) →
      (∀ l ∈ L, p l = false → p (f l) = false) →
      (L.map f).filter p = List.replicate (L.countP p) c
  | [], _, _ => rfl
  | a :: L, h1, h2 => by
    cases ha : p a
    · rw [List.map_cons, List.filter_cons_of_neg
        (by simp [h2 a (List.mem_cons_self a L) ha])]
      rw [filter_map_replicate f p c hc L (fun l hl => h1 l (List.mem_cons_of_mem a hl))
        (fun l hl => h2 l (List.mem_cons_of_mem a hl))]
      simp [List.countP_cons, ha]
    · rw [List.map_cons, h1 a (List.mem_cons_self a L) ha,
        List.filter_cons_of_pos (by simp [hc])]
      rw [filter_map_replicate f p c hc L (fun l hl => h1 l (List.mem_cons_of_mem a hl))
        (fun l hl => h2 l (List.mem_cons_of_mem a hl))]
      simp [List.countP_cons, ha, List.replicate_succ]

/-- Once the accumulated list holds exactly one line matching the key of kv0
(the canonical line), the append phase preserves that, provided every other
setting's canonical rendering does not match kv0's key. -/
theorem appendMissing_filter_stable (ini : Bool) (kv0 : String × String) :
    ∀ (ss : List (String × String)) (acc : List String),
      (∀ kv ∈ ss, kv = kv0 ∨ lineMatches kv0.1 (canonicalKV ini kv.1 kv.2) = false) →
      acc.filter (fun l => lineMatches kv0.1 l) = [canonicalKV ini kv0.1 kv0.2] →
      (appendMissing ini ss acc).filter (fun l => lineMatches kv0.1 l) =
        [canonicalKV ini kv0.1 kv0.2]
  | [], _, _, hacc => hacc
  | kv :: rest, acc, hdisj, hacc => by
    rw [appendMissing]
    by_cases hc : acc.any (fun l => lineMatches kv.1 l) = true
    · rw [if_pos hc]
      exact appendMissing_filter_stable ini kv0 rest acc
        (fun kv2 h2 => hdisj kv2 (List.mem_cons_of_mem kv h2)) hacc
    · rw [if_neg hc]
      rcases hdisj kv (List.mem_cons_self kv rest) with h | h
      · exfalso
        apply hc
        subst h
        have hmem : canonicalKV ini kv.1 kv.2 ∈
            acc.filter (fun l => lineMatches kv.1 l) := by
          rw [hacc]; exact List.mem_cons_self _ _
        rcases List.mem_filter.mp hmem with ⟨hmem2, hp⟩
        exact List.any_eq_true.mpr ⟨_, hmem2, hp⟩
      · refine appendMissing_filter_stable ini kv0 rest _
          (fun kv2 h2 => hdisj kv2 (List.mem_cons_of_mem kv h2)) ?_
        rw [List.filter_append, hacc]
        simp [List.filter_cons, h]

/-- If the key of kv0 occurs among the settings, the accumulated list holds at
most the canonical line for it, and canonical renderings of distinct settings
do not cross-match, then after the append phase exactly the canonical line for
kv0 matches its key. -/
theorem appendMissing_filter_main (ini : Bool) (kv0 : String × String)
    (hself : lineMatches kv0.1 (canonicalKV ini kv0.1 kv0.2) = true) :
    ∀ (ss : List (String × String)) (acc : List String),
      kv0 ∈ ss →
      (∀ kv ∈ ss, kv = kv0 ∨ lineMatches kv0.1 (canonicalKV ini kv.1 kv.2) = false) →
      (acc.filter (fun l => lineMatches kv0.1 l) = [] ∨
        acc.filter (fun l => lineMatches kv0.1 l) = [canonicalKV ini kv0.1 kv0.2]) →
      (appendMissing ini ss acc).filter (fun l => lineMatches kv0.1 l) =
        [canonicalKV ini kv0.1 kv0.2]
  | [], _, hmem, _, _ => absurd hmem (List.not_mem_nil kv0)
  | kv :: rest, acc, hmem, hdisj, hacc => by
    rw [appendMissing]
    by_cases heq : kv = kv0
    · subst heq
      by_cases hc : acc.any (fun l => lineMatches kv.1 l) = true
      · rw [if_pos hc]
        rcases hacc with h | h
        · exfalso
          rcases List.any_eq_true.mp hc with ⟨x, hx, hpx⟩
          have hmem2 : x ∈ acc.filter (fun l => lineMatches kv.1 l) :=
            List.mem_filter.mpr ⟨hx, hpx⟩
          rw [h] at hmem2
          exact absurd hmem2 (List.not_mem_nil x)
        · exact appendMissing_filter_stable ini kv rest acc
            (fun kv2 h2 => hdisj kv2 (List.mem_cons_of_mem kv h2)) h
      · rw [if_neg hc]
        have hnil : acc.filter (fun l => lineMatches kv.1 l) = [] := by
          rcases hacc with h | h
          · exact h
          · exfalso
            apply hc
            have hmem2 : canonicalKV ini kv.1 kv.2 ∈
                acc.filter (fun l => lineMatches kv.1 l) := by
              rw [h]; exact List.mem_cons_self _ _
            rcases List.mem_filter.mp hmem2 with ⟨hmem3, hp⟩
            exact List.any_eq_true.mpr ⟨_, hmem3, hp⟩
        refine appendMissing_filter_stable ini kv rest _
          (fun kv2 h2 => hdisj kv2 (List.mem_cons_of_mem kv h2)) ?_
        rw [List.filter_append, hnil]
        simp [List.filter_cons, hself]
    · have hkv0mem : kv0 ∈ rest := by
        rcases List.mem_cons.mp hmem with h | h
        · exact absurd h.symm heq
        · exact h
      rcases hdisj kv (List.mem_cons_self kv rest) with h | h
      · exact absurd h heq
      · by_cases hc : acc.any (fun l => lineMatches kv.1 l) = true
        · rw [if_pos hc]
          exact appendMissing_filter_main ini kv0 hself rest acc hkv0mem
            (fun kv2 h2 => hdisj kv2 (List.mem_cons_of_mem kv h2)) hacc
        · rw [if_neg hc]
          refine appendMissing_filter_main ini kv0 hself rest _ hkv0mem
            (fun kv2 h2 => hdisj kv2 (List.mem_cons_of_mem kv h2)) ?_
          rw [List.filter_append]
          rcases hacc with h2 | h2
          · rw [h2]; left; simp [List.filter_cons, h]
          · rw [h2]; right; simp [List.filter_cons, h]

/-- Completeness of the Line Reconciler under the separation hypotheses: for
every key, the output lines matching it are exactly one canonical line. -/
theorem update_config_file_filter (ini : Bool) (settings : List (String × String))
    (L : List String)
    (Hself : ∀ kv ∈ settings, lineMatches kv.1 (canonicalKV ini kv.1 kv.2) = true)
    (Hsep : ∀ kv ∈ settings, ∀ kv2 ∈ settings, kv ≠ kv2 →
      lineMatches kv2.1 (canonicalKV ini kv.1 kv.2) = false)
    (Huniq : ∀ l ∈ L, ∀ kv ∈ settings, ∀ kv2 ∈ settings,
      lineMatches kv.1 l = true → lineMatches kv2.1 l = true → kv = kv2)
    (Hcnt : ∀ kv ∈ settings, L.countP (fun l => lineMatches kv.1 l) ≤ 1) :
    ∀ kv ∈ settings, (update_config_file ini settings L).filter
      (fun l => lineMatches kv.1 l) = [canonicalKV ini kv.1 kv.2] := by
  intro kv0 hkv0
  have R1 : ∀ l ∈ L, lineMatches kv0.1 l = true →
      rewriteLine ini settings l = canonicalKV ini kv0.1 kv0.2 := by
    intro l hl hm
    rw [rewriteLine, find?_eq_some_of_unique (fun kv => lineMatches kv.1 l) kv0 settings
      hkv0 hm (fun kv hkv h2 => Huniq l hl kv hkv kv0 hkv0 (by simpa using h2) hm)]
  have R2 : ∀ l ∈ L, lineMatches kv0.1 l = false →
      lineMatches kv0.1 (rewriteLine ini settings l) = false := by
    intro l hl hm
    rw [rewriteLine]
    cases hf : settings.find? (fun kv => lineMatches kv.1 l) with
    | none => exact hm
    | some kv =>
      have hkv : kv ∈ settings := List.mem_of_find?_eq_some hf
      have hp : lineMatches kv.1 l = true := by simpa using List.find?_some hf
      have hne : kv ≠ kv0 := by
        intro h
        rw [h] at hp
        rw [hp] at hm
        exact Bool.noConfusion hm
      exact Hsep kv hkv kv0 hkv0 hne
  have hfil := filter_map_replicate (rewriteLine ini settings)
    (fun l => lineMatches kv0.1 l) (canonicalKV ini kv0.1 kv0.2) (Hself kv0 hkv0) L R1 R2
  have hdisjacc : (L.map (rewriteLine ini settings)).filter
        (fun l => lineMatches kv0.1 l) = [] ∨
      (L.map (rewriteLine ini settings)).filter (fun l => lineMatches kv0.1 l) =
        [canonicalKV ini kv0.1 kv0.2] := by
    rw [hfil]
    rcases Nat.le_one_iff_eq_zero_or_eq_one.mp (Hcnt kv0 hkv0) with h | h <;> rw [h] <;> simp
  rw [update_config_file]
  refine appendMissing_filter_main ini kv0 (Hself kv0 hkv0) settings _ hkv0 ?_ hdisjacc
  intro kv hkv
  by_cases h : kv = kv0
  · exact Or.inl h
  · exact Or.inr (Hsep kv hkv kv0 hkv0 h)

/-- Completeness of update_or_append_line for its single key: the output lines
matching the key are exactly one canonical line, provided the canonical line
matches the key and the input holds at most one matching line. -/
theorem update_or_append_line_filter (isXres : Bool) (key value : String) (L : List String)
    (hc : lineMatches key (uoalCanon isXres key value) = true)
    (hcnt : L.countP (fun l => lineMatches key l) ≤ 1) :
    (update_or_append_line isXres false key value L).filter (fun l => lineMatches key l) =
      [uoalCanon isXres key value] := by
  have hstep1 : ∀ l ∈ L, lineMatches key l = true →
      uoalStep isXres false key value l = uoalCanon isXres key value := by
    intro l _ hm
    simp [uoalStep, hm]
  have hstep2 : ∀ l ∈ L, lineMatches key l = false →
      lineMatches key (uoalStep isXres false key value l) = false := by
    intro l _ hm
    simp [uoalStep, hm]
  have hfil := filter_map_replicate (uoalStep isXres false key value)
    (fun l => lineMatches key l) (uoalCanon isXres key value) hc L hstep1 hstep2
  rw [update_or_append_line]
  by_cases hany : L.any (uoalMatched false key) = true
  · simp only [hany, if_true]
    rw [hfil]
    have hpos : 0 < L.countP (fun l => lineMatches key l) := by
      rcases List.any_eq_true.mp hany with ⟨x, hx, hpx⟩
      exact List.countP_pos_iff.mpr ⟨x, hx, by simpa [uoalMatched] using hpx⟩
    have h1 : L.countP (fun l => lineMatches key l) = 1 := Nat.le_antisymm hcnt hpos
    rw [h1]
    rfl
  · simp only [hany, Bool.false_eq_true, if_false]
    rw [List.filter_append, hfil]
    have h0 : L.countP (fun l => lineMatches key l) = 0 := by
      rw [List.countP_eq_zero]
      intro a ha
      have := (List.any_eq_false.mp (by simpa using hany)) a ha
      simpa [uoalMatched] using this
    rw [h0]
    simp [List.filter_cons, hc]

/-- C2 amended: after reconciliation every desired key is matched by exactly
one output line, the canonical rendering of its value — provided each key
matches at most one input line, no input line matches two distinct settings,
and the canonical renderings match exactly their own keys (all true for the
program's settings).  Without these provisos the property fails: several
matching input lines are each rewritten in place and all remain.  Stated for
update_config_file over any settings mapping and for update_or_append_line
over its single key. -/
theorem c2_completeness_amended (ini : Bool) (settings : List (String × String))
    (L : List String) (isXres : Bool) (key value : String) (L2 : List String)
    (Hself : ∀ kv ∈ settings, lineMatches kv.1 (canonicalKV ini kv.1 kv.2) = true)
    (Hsep : ∀ kv ∈ settings, ∀ kv2 ∈ settings, kv ≠ kv2 →
      lineMatches kv2.1 (canonicalKV ini kv.1 kv.2) = false)
    (Huniq : ∀ l ∈ L, ∀ kv ∈ settings, ∀ kv2 ∈ settings,
      lineMatches kv.1 l = true → lineMatches kv2.1 l = true → kv = kv2)
    (Hcnt : ∀ kv ∈ settings, L.countP (fun l => lineMatches kv.1 l) ≤ 1)
    (hc : lineMatches key (uoalCanon isXres key value) = true)
    (hcnt2 : L2.countP (fun l => lineMatches key l) ≤ 1) :
    (∀ kv ∈ settings, (update_config_file ini settings L).filter
      (fun l => lineMatches kv.1 l) = [canonicalKV ini kv.1 kv.2]) ∧
    (update_or_append_line isXres false key value L2).filter
      (fun l => lineMatches key l) = [uoalCanon isXres key value] :=
  ⟨update_config_file_filter ini settings L Hself Hsep Huniq Hcnt,
   update_or_append_line_filter isXres key value L2 hc hcnt2⟩

/-- C2 witness: the GTK3 settings of the program on a file holding one stale
line and a comment, and the Xresources update on a stale line. -/
theorem c2_completeness_witness :
    (∀ kv ∈ [("gtk-font-name", "Sans 14"), ("gtk-dpi", "144"), ("gtk-xft-dpi", "144000")],
      (update_config_file true
          [("gtk-font-name", "Sans 14"), ("gtk-dpi", "144"), ("gtk-xft-dpi", "144000")]
          ["# comment\n", "gtk-dpi=96\n"]).filter
        (fun l => lineMatches kv.1 l) = [canonicalKV true kv.1 kv.2]) ∧
    (update_or_append_line true false "Xft.dpi" "144" ["Xft.dpi: 96\n"]).filter
      (fun l => lineMatches "Xft.dpi" l) = [uoalCanon true "Xft.dpi" "144"] :=
  c2_completeness_amended true
    [("gtk-font-name", "Sans 14"), ("gtk-dpi", "144"), ("gtk-xft-dpi", "144000")]
    ["# comment\n", "gtk-dpi=96\n"] true "Xft.dpi" "144" ["Xft.dpi: 96\n"]
    (by decide) (by decide) (by decide) (by decide) (by decide) (by decide)

/-! Helper lemmas about physical lines of file content. -/

theorem splitLinesChars_eq_nil : ∀ cs : List Char, splitLinesChars cs = [] → cs = []
  | [], _ => rfl
  | c :: cs, h => by
    rw [splitLinesChars] at h
    by_cases hc : c = '\n'
    · rw [if_pos hc] at h
      cases h
    · rw [if_neg hc] at h
      cases hsplit : splitLinesChars cs with
      | nil => rw [hsplit] at h; cases h
      | cons l ls => rw [hsplit] at h; cases h

theorem joinLines_splitLinesChars : ∀ cs : List Char, (joinLines (splitLinesChars cs)).data = cs
  | [] => rfl
  | c :: cs => by
    by_cases hc : c = '\n'
    · subst hc
      rw [splitLinesChars, if_pos rfl, joinLines, String.data_append,
        joinLines_splitLinesChars cs]
      rfl
    · rw [splitLinesChars, if_neg hc]
      cases hsplit : splitLinesChars cs with
      | nil =>
        have hnil : cs = [] := splitLinesChars_eq_nil cs hsplit
        subst hnil
        rfl
      | cons l ls =>
        have ih := joinLines_splitLinesChars cs
        rw [hsplit, joinLines, String.data_append] at ih
        rw [joinLines, String.data_append]
        show (c :: l.data) ++ (joinLines ls).data = c :: cs
        rw [List.cons_append, ih]

theorem joinLines_readLines (C : String) : joinLines (readLines C) = C :=
  String.ext (joinLines_splitLinesChars C.data)

theorem joinLines_concat : ∀ (M : List String) (x : String),
    joinLines (M ++ [x]) = joinLines M ++ x
  | [], x => by
    apply String.ext
    show (x ++ joinLines []).data = ("" ++ x).data
    rw [String.data_append, String.data_append]
    show x.data ++ ([] : List Char) = ([] : List Char) ++ x.data
    rw [List.append_nil, List.nil_append]
  | l :: M, x => by
    show l ++ joinLines (M ++ [x]) = (l ++ joinLines M) ++ x
    rw [joinLines_concat M x]
    apply String.ext
    rw [String.data_append, String.data_append, String.data_append, String.data_append]
    rw [List.append_assoc]

theorem splitLinesChars_ne_nil : ∀ cs : List Char, cs ≠ [] → splitLinesChars cs ≠ []
  | [], h, _ => h rfl
  | c :: cs, _, h => by
    rw [splitLinesChars] at h
    by_cases hc : c = '\n'
    · rw [if_pos hc] at h; cases h
    · rw [if_neg hc] at h
      cases hsplit : splitLinesChars cs with
      | nil => rw [hsplit] at h; cases h
      | cons l ls => rw [hsplit] at h; cases h

theorem splitLinesChars_length_cons (c : Char) (cs : List Char) (hc : c ≠ '\n')
    (hcs : cs ≠ []) :
    (splitLinesChars (c :: cs)).length = (splitLinesChars cs).length := by
  rw [splitLinesChars, if_neg hc]
  cases hsplit : splitLinesChars cs with
  | nil => exact absurd (splitLinesChars_eq_nil cs hsplit) hcs
  | cons l ls => simp

theorem splitLinesChars_nlfree : ∀ zs : List Char, '\n' ∉ zs →
    splitLinesChars (zs ++ ['\n']) = [⟨zs ++ ['\n']⟩]
  | [], _ => by
    rw [List.nil_append, splitLinesChars, if_pos rfl]
    rfl
  | z :: zs, h => by
    have hz : z ≠ '\n' := fun hh => h (by rw [hh]; exact List.mem_cons_self '\n' zs)
    rw [List.cons_append, splitLinesChars, if_neg hz,
      splitLinesChars_nlfree zs (fun hh => h (List.mem_cons_of_mem z hh))]

theorem splitLinesChars_append_length : ∀ (xs zs : List Char), xs ≠ [] →
    xs.getLast? ≠ some '\n' → '\n' ∉ zs →
    (splitLinesChars (xs ++ (zs ++ ['\n']))).length = (splitLinesChars xs).length
  | [], _, hne, _, _ => absurd rfl hne
  | [x], zs, _, hlast, hz => by
    have hx : x ≠ '\n' := by
      intro h
      rw [h] at hlast
      exact hlast rfl
    rw [List.cons_append, List.nil_append]
    rw [splitLinesChars, if_neg hx, splitLinesChars_nlfree zs hz]
    rw [splitLinesChars, if_neg hx]
    rfl
  | x :: y :: t, zs, _, hlast, hz => by
    rw [List.getLast?_cons_cons] at hlast
    by_cases hx : x = '\n'
    · subst hx
      rw [List.cons_append, splitLinesChars, if_pos rfl, splitLinesChars, if_pos rfl]
      simp only [List.length_cons]
      rw [splitLinesChars_append_length (y :: t) zs (by simp) hlast hz]
    · rw [List.cons_append]
      rw [splitLinesChars_length_cons x ((y :: t) ++ (zs ++ ['\n'])) hx (by simp)]
      rw [splitLinesChars_length_cons x (y :: t) hx (by simp)]
      exact splitLinesChars_append_length (y :: t) zs (by simp) hlast hz

theorem readLines_append_line (C s : String) (hC : C.data ≠ [])
    (hlast : C.data.getLast? ≠ some '\n')
    (hs : ∃ zs, s.data = zs ++ ['\n'] ∧ '\n' ∉ zs) :
    (readLines (C ++ s)).length = (readLines C).length := by
  obtain ⟨zs, hzs, hz⟩ := hs
  rw [readLines, readLines, String.data_append, hzs]
  exact splitLinesChars_append_length C.data zs hC hlast hz

/-- A newline occurs in an append only through one of the parts. -/
theorem nl_notin_append (xs ys : List Char) (hx : '\n' ∉ xs) (hy : '\n' ∉ ys) :
    '\n' ∉ xs ++ ys := by
  intro h
  rcases List.mem_append.mp h with h | h
  · exact hx h
  · exact hy h

/-- Decomposition of a canonical line of shape x sep y newline: everything
before its terminating newline is newline-free. -/
theorem canon_decomp (x sep y : String) (hx : '\n' ∉ x.data) (hsep : '\n' ∉ sep.data)
    (hy : '\n' ∉ y.data) :
    ∃ zs, (x ++ sep ++ y ++ "\n").data = zs ++ ['\n'] ∧ '\n' ∉ zs := by
  refine ⟨(x ++ sep ++ y).data, ?_, ?_⟩
  · rw [String.data_append]
  · rw [String.data_append, String.data_append]
    exact nl_notin_append _ _ (nl_notin_append _ _ hx hsep) hy

/-- A line matching neither branch of update_or_append_line passes through
its per-line transform unchanged. -/
theorem uoalStep_id (isXres command : Bool) (key value l : String)
    (h : uoalMatched command key l = false) : uoalStep isXres command key value l = l := by
  rw [uoalMatched] at h
  rcases Bool.or_eq_false_iff.mp h with ⟨h1, h2⟩
  rw [uoalStep, if_neg (by simp [h1]), if_neg (by simp [h2])]

/-- A line not matching the export predicate passes through unchanged. -/
theorem envStep_id (key value l : String) (h : envMatch key l = false) :
    envStep key value l = l := by
  rw [envStep, if_neg (by simp [h])]

/-- Append phase over a single setting with no matching line appends exactly
the canonical line. -/
theorem appendMissing_single (ini : Bool) (key value : String) (M : List String)
    (h : M.any (fun l => lineMatches key l) = false) :
    appendMissing ini [(key, value)] M = M ++ [canonicalKV ini key value] := by
  rw [appendMissing, if_neg (by simp [h]), appendMissing]

/-- With no matching line, update_or_append_line appends its canonical line
after the unchanged input lines. -/
theorem uoal_append_content (C key value : String) (isXres command : Bool)
    (h1 : (readLines C).any (uoalMatched command key) = false) :
    update_or_append_line isXres command key value (readLines C) =
      readLines C ++
        [if command then uoalCommandLine key value else uoalCanon isXres key value] := by
  rw [update_or_append_line]
  simp only [h1, Bool.false_eq_true, if_false]
  have hid : ∀ l ∈ readLines C, uoalStep isXres command key value l = l := by
    intro l hl
    apply uoalStep_id
    have := List.any_eq_false.mp h1 l hl
    simpa using this
  rw [map_id_of_fixed _ _ hid]

/-- With no matching line, update_config_file over a single setting appends
exactly the canonical line after the unchanged input lines. -/
theorem ucf_append_content (C key value : String) (ini : Bool)
    (h2 : (readLines C).any (fun l => lineMatches key l) = false) :
    update_config_file ini [(key, value)] (readLines C) =
      readLines C ++ [canonicalKV ini key value] := by
  rw [update_config_file]
  have hid : ∀ l ∈ readLines C, rewriteLine ini [(key, value)] l = l := by
    intro l hl
    apply rewriteLine_eq_self
    simp only [List.any_cons, List.any_nil, Bool.or_false]
    simpa using List.any_eq_false.mp h2 l hl
  rw [map_id_of_fixed _ _ hid]
  exact appendMissing_single ini key value (readLines C) h2

/-- With no matching line, update_or_append_env_var appends exactly the
canonical export line after the unchanged input lines. -/
theorem env_append_content (C key value : String)
    (h3 : (readLines C).any (envMatch key) = false) :
    update_or_append_env_var key value (readLines C) =
      readLines C ++ [envCanon key value] := by
  rw [update_or_append_env_var]
  simp only [h3, Bool.false_eq_true, if_false]
  have hid : ∀ l ∈ readLines C, envStep key value l = l := by
    intro l hl
    apply envStep_id
    have := List.any_eq_false.mp h3 l hl
    simpa using this
  rw [map_id_of_fixed _ _ hid]

/-- C10: for each of the three reconcilers, when the existing content does not
end with a newline (and no line matches, so the canonical line is appended),
the written output is the old content directly concatenated with the canonical
line: the appended text carries its own trailing newline but no separator is
inserted before it, so it continues the final physical line instead of
starting a new one — the output has exactly as many physical lines as the
input. -/
theorem c10_newline_concat (C key value : String) (isXres command ini : Bool)
    (hC : C.data ≠ []) (hlast : C.data.getLast? ≠ some '\n')
    (hk : '\n' ∉ key.data) (hv : '\n' ∉ value.data)
    (h1 : (readLines C).any (uoalMatched command key) = false)
    (h2 : (readLines C).any (fun l => lineMatches key l) = false)
    (h3 : (readLines C).any (envMatch key) = false) :
    (joinLines (update_or_append_line isXres command key value (readLines C)) =
        C ++ (if command then uoalCommandLine key value else uoalCanon isXres key value) ∧
      (readLines (C ++
        (if command then uoalCommandLine key value else uoalCanon isXres key value))).length =
        (readLines C).length) ∧
    (joinLines (update_config_file ini [(key, value)] (readLines C)) =
        C ++ canonicalKV ini key value ∧
      (readLines (C ++ canonicalKV ini key value)).length = (readLines C).length) ∧
    (joinLines (update_or_append_env_var key value (readLines C)) =
        C ++ envCanon key value ∧
      (readLines (C ++ envCanon key value)).length = (readLines C).length) := by
  have hjoin : ∀ app : String, joinLines (readLines C ++ [app]) = C ++ app := by
    intro app
    rw [joinLines_concat, joinLines_readLines]
  have happ1 : ∃ zs,
      (if command then uoalCommandLine key value else uoalCanon isXres key value).data =
        zs ++ ['\n'] ∧ '\n' ∉ zs := by
    cases command
    · cases isXres
      · exact canon_decomp key "=" value hk (by decide) hv
      · exact canon_decomp key ": " value hk (by decide) hv
    · exact canon_decomp key " " value hk (by decide) hv
  have happ2 : ∃ zs, (canonicalKV ini key value).data = zs ++ ['\n'] ∧ '\n' ∉ zs := by
    cases ini
    · exact canon_decomp key " = " value hk (by decide) hv
    · exact canon_decomp key "=" value hk (by decide) hv
  have hkexp : '\n' ∉ ("export " ++ key).data := by
    rw [String.data_append]
    exact nl_notin_append _ _ (by decide) hk
  have happ3 : ∃ zs, (envCanon key value).data = zs ++ ['\n'] ∧ '\n' ∉ zs :=
    canon_decomp ("export " ++ key) "=" value hkexp (by decide) hv
  refine ⟨⟨?_, ?_⟩, ⟨?_, ?_⟩, ⟨?_, ?_⟩⟩
  · rw [uoal_append_content C key value isXres command h1]
    exact hjoin _
  · exact readLines_append_line C _ hC hlast happ1
  · rw [ucf_append_content C key value ini h2]
    exact hjoin _
  · exact readLines_append_line C _ hC hlast happ2
  · rw [env_append_content C key value h3]
    exact hjoin _
  · exact readLines_append_line C _ hC hlast happ3

/-- C10 witness: a three-character file with no trailing newline gains the
canonical lines on the same physical line for all three reconcilers. -/
theorem c10_newline_concat_witness :
    (joinLines (update_or_append_line true false "K" "1" (readLines "abc")) =
        "abc" ++ (if false then uoalCommandLine "K" "1" else uoalCanon true "K" "1") ∧
      (readLines ("abc" ++
        (if false then uoalCommandLine "K" "1" else uoalCanon true "K" "1"))).length =
        (readLines "abc").length) ∧
    (joinLines (update_config_file true [("K", "1")] (readLines "abc")) =
        "abc" ++ canonicalKV true "K" "1" ∧
      (readLines ("abc" ++ canonicalKV true "K" "1")).length = (readLines "abc").length) ∧
    (joinLines (update_or_append_env_var "K" "1" (readLines "abc")) =
        "abc" ++ envCanon "K" "1" ∧
      (readLines ("abc" ++ envCanon "K" "1")).length = (readLines "abc").length) :=
  c10_newline_concat "abc" "K" "1" true false true (by decide) (by decide) (by decide)
    (by decide) (by decide) (by decide) (by decide)
